import Mathlib

/-!
Verification of the progress_reporter repository (Go) against its
natural-language specification.

The repository has two components, both in reporter.go:
* ProgressBar (spec name: ProgressTracker) with methods NewProgressBar,
  Increment, IncrementBy, AddTotal, SetCurrentStage, Display,
  displayWithoutLock, formatProgressBar, Finish.
* ProgressReporter (spec name: StageTimer) with methods NewProgressReporter,
  StartRecord, EndRecord, StartKeyStageRecord, EndKeyStageRecord, Report.

Embedding conventions:
* Go int and time.Duration (int64 nanoseconds) are embedded as Lean Int.
  The program never relies on wraparound, so machine words are idealized as
  unbounded integers; where a claim depends on the int64 range (the
  minDuration sentinel 1<<63 - 1) the range bound appears as an explicit
  hypothesis.
* time.Now() / time.Since(startTime) are nondeterministic inputs; every
  operation that reads the clock takes the observed value (a timestamp or an
  elapsed-nanoseconds amount) as an explicit argument.
* Console output (fmt.Print / fmt.Printf / fmt.Println) is modelled by
  returning the list of strings written, in order.  fmt.Println writes its
  text plus a newline.
* The Go map ks is modelled as an association list in insertion order;
  looking up a missing key and dereferencing the resulting nil pointer
  (EndKeyStageRecord on a never-started name) is modelled by Option.none.
* The sync.Mutex is held by every public mutating ProgressBar method for its
  whole body, so a concurrent execution is equivalent to some sequential
  interleaving of whole calls; concurrency claims are stated over an
  arbitrary sequence of calls.
* float64 arithmetic in formatProgressBar (average speed, ETA, percent) is
  idealized as exact rational arithmetic, realized below by integer
  computations; divisions that Go performs by converting floats to integers
  truncate toward zero, embedded with Int.tdiv / Nat floor division.
-/

/-- Embeds Go strings.Repeat for a nonnegative count (Go panics on a
negative count; all call sites here pass nonnegative counts). -/
def stringsRepeat (s : String) (n : Nat) : String :=
  String.join (List.replicate n s)

/-- Embeds Go time.Duration.String restricted to whole-second durations
(every call site first rounds to a multiple of time.Second): seconds,
with minute and hour components exactly when the value reaches them,
and "0s" for zero. -/
def goDurationStringSec (s : Nat) : String :=
  if s = 0 then "0s"
  else if s < 60 then toString s ++ "s"
  else if s < 3600 then toString (s / 60) ++ "m" ++ toString (s % 60) ++ "s"
  else toString (s / 3600) ++ "h" ++ toString (s % 3600 / 60) ++ "m" ++
    toString (s % 60) ++ "s"

/-- Embeds Go Duration.Round(time.Second): round a nanosecond count to the
nearest multiple of 1e9, halves away from zero. -/
def durationRoundSec (d : Int) : Int :=
  if d < 0 then -(((d.natAbs + 500000000) / 1000000000 * 1000000000 : Nat) : Int)
  else (((d.toNat + 500000000) / 1000000000 * 1000000000 : Nat) : Int)

/-- Embeds Go Duration.String on multiples of time.Second (the only values
it is applied to here). -/
def durationString (d : Int) : String :=
  if d < 0 then "-" ++ goDurationStringSec (d.natAbs / 1000000000)
  else goDurationStringSec (d.toNat / 1000000000)

/-- Embeds fmt.Sprintf "%.1f" applied to the average speed
current / (elapsedNs / 1e9), for current > 0 and elapsedNs > 0: the exact
quotient rounded to one decimal, halves away from zero (exact-rational
idealization of the float64 computation). -/
def fmtOneDecimal (current elapsedNs : Int) : String :=
  let t := (2 * (current.toNat * 10000000000) + elapsedNs.toNat) /
    (2 * elapsedNs.toNat)
  toString (t / 10) ++ "." ++ toString (t % 10)

/-- Left-pads a string with spaces to the given width, as fmt "%3.0f" does. -/
def padLeft (w : Nat) (s : String) : String :=
  stringsRepeat " " (w - s.length) ++ s

/-- Rounds the exact rational a / b to the nearest integer, halves away from
zero (exact-rational idealization of fmt "%.0f"). -/
def roundHalfAway (a b : Int) : Int :=
  if 0 ≤ a * b then ((2 * a.natAbs + b.natAbs) / (2 * b.natAbs) : Nat)
  else -(((2 * a.natAbs + b.natAbs) / (2 * b.natAbs) : Nat) : Int)

/-- Embeds the "%3.0f" rendering of percent*100 in formatProgressBar. -/
def fmtPercent (current total : Int) : String :=
  padLeft 3 (toString (roundHalfAway (100 * current) total))

/-- State of reporter.go ProgressBar.  startTime is omitted: renders receive
the elapsed time (time.Since(startTime)) as an argument; the mutex mu is
the lock discipline, not data. -/
structure ProgressBar where
  total : Int
  current : Int
  barLength : Nat
  description : String
  currentStageName : String
deriving DecidableEq, Repr

/-- Embeds NewProgressBar: current starts at 0, stage name empty. -/
def NewProgressBar (description : String) (total : Int) (barLength : Nat) :
    ProgressBar :=
  { total := total
    current := 0
    barLength := barLength
    description := description
    currentStageName := "" }

/-- Embeds the avgSpeedString computation in formatProgressBar: the
Sprintf branch fires when elapsedSeconds > 0 and current > 0, otherwise the
initial "0.0 items/s" stands (the source re-assigns the same default in its
current == 0 branch). -/
def avgSpeedString (current elapsedNs : Int) : String :=
  if 0 < elapsedNs ∧ 0 < current then
    fmtOneDecimal current elapsedNs ++ " items/s"
  else "0.0 items/s"

/-- Embeds the etaString computation in formatProgressBar.  avgSpeed > 0
exactly when elapsedSeconds > 0 and current > 0.  The ETA branch computes
remaining / avgSpeed seconds, converts to a millisecond Duration
(float-to-int conversion truncates toward zero), rounds to the nearest
second and prints the Duration. -/
def etaString (current total elapsedNs : Int) : String :=
  if current = total then "Done"
  else if 0 < elapsedNs ∧ 0 < current then
    durationString (durationRoundSec
      (Int.tdiv ((total - current) * elapsedNs * 1000) (current * 1000000000) *
        1000000))
  else if current = 0 ∧ 0 < total then "Estimating..."
  else "N/A"

/-- Embeds formatProgressBar.  The total == 0 guard returns the degenerate
line (empty bar, literal 0 percent, raw counts) before any division by
total; the main branch divides by total only under total ≠ 0. -/
def formatProgressBar (current total : Int) (description : String)
    (barLength : Nat) (elapsedNs : Int) (currentStageName : String) : String :=
  if total = 0 then
    "\r" ++ description ++ ": [ " ++ stringsRepeat "-" barLength ++ " ] 0% (" ++
      toString current ++ "/" ++ toString total ++ ") | Stage: " ++
      currentStageName ++ " | Elapsed: " ++
      durationString (durationRoundSec elapsedNs) ++ " | Avg: " ++
      avgSpeedString current elapsedNs ++ " | ETA: " ++
      etaString current total elapsedNs
  else
    let filledLength := Int.tdiv ((barLength : Int) * current) total
    let bar := stringsRepeat "=" filledLength.toNat ++
      stringsRepeat "-" ((barLength : Int) - filledLength).toNat
    "\r" ++ description ++ ": [" ++ bar ++ "] " ++ fmtPercent current total ++
      "% (" ++ toString current ++ "/" ++ toString total ++ ") | Stage: " ++
      currentStageName ++ " | Elapsed: " ++
      durationString (durationRoundSec elapsedNs) ++ " | Avg: " ++
      avgSpeedString current elapsedNs ++ " | ETA: " ++
      etaString current total elapsedNs

/-- Embeds displayWithoutLock: print the formatted line, and a newline via
fmt.Println exactly when current == total. -/
def displayWithoutLock (current total : Int) (description : String)
    (barLength : Nat) (elapsedNs : Int) (currentStageName : String) :
    List String :=
  let output := formatProgressBar current total description barLength
    elapsedNs currentStageName
  if current = total then [output, "\n"] else [output]

/-- Embeds Display (same body as displayWithoutLock, reading the fields
under the lock). -/
def Display (pb : ProgressBar) (elapsedNs : Int) : List String :=
  let output := formatProgressBar pb.current pb.total pb.description
    pb.barLength elapsedNs pb.currentStageName
  if pb.current = pb.total then [output, "\n"] else [output]

/-- Embeds IncrementBy: reject negative n with a printed error (fmt.Println)
and no state change; otherwise add, clamp at total, and display. -/
def IncrementBy (pb : ProgressBar) (n : Int) (elapsedNs : Int) :
    ProgressBar × List String :=
  if n < 0 then (pb, ["Error: Increment value cannot be negative.\n"])
  else
    let current := pb.current + n
    let current := if current > pb.total then pb.total else current
    ({ pb with current := current },
      displayWithoutLock current pb.total pb.description pb.barLength
        elapsedNs pb.currentStageName)

/-- Embeds Increment: IncrementBy 1. -/
def Increment (pb : ProgressBar) (elapsedNs : Int) : ProgressBar × List String :=
  IncrementBy pb 1 elapsedNs

/-- Embeds AddTotal: add n to total, clamp total at 0, pull current down to
total when it exceeds it, and display. -/
def AddTotal (pb : ProgressBar) (n : Int) (elapsedNs : Int) :
    ProgressBar × List String :=
  let total := pb.total + n
  let total := if total < 0 then 0 else total
  let current := if pb.current > total then total else pb.current
  ({ pb with total := total, current := current },
    displayWithoutLock current total pb.description pb.barLength elapsedNs
      pb.currentStageName)

/-- The mutating counter operations of the spec: advance (IncrementBy) and
adjustTotal (AddTotal).  Each call holds the single mutex for its whole
body, so a concurrent history is some sequence of these operations. -/
inductive PBOp where
  | advance (n : Int)
  | adjustTotal (n : Int)
deriving DecidableEq, Repr

/-- State effect of one operation (the elapsed-time argument only feeds the
printed line, not the state; 0 is passed). -/
def applyOp (pb : ProgressBar) (op : PBOp) : ProgressBar :=
  match op with
  | .advance n => (IncrementBy pb n 0).1
  | .adjustTotal n => (AddTotal pb n 0).1

/-- Runs a sequence of operations. -/
def runOps (pb : ProgressBar) (ops : List PBOp) : ProgressBar :=
  ops.foldl applyOp pb

/-- The counter invariant of the spec data model. -/
def PBInv (pb : ProgressBar) : Prop :=
  0 ≤ pb.current ∧ pb.current ≤ pb.total

lemma applyOp_inv {pb : ProgressBar} (op : PBOp) (h : PBInv pb) :
    PBInv (applyOp pb op) := by
  obtain ⟨h1, h2⟩ := h
  cases op with
  | advance n =>
    simp only [applyOp, IncrementBy, PBInv]
    split_ifs with hn hc <;> refine ⟨?_, ?_⟩ <;> simp <;> omega
  | adjustTotal n =>
    simp only [applyOp, AddTotal, PBInv]
    split_ifs with ht hc hc <;> constructor <;> omega

lemma runOps_inv {pb : ProgressBar} (ops : List PBOp) (h : PBInv pb) :
    PBInv (runOps pb ops) := by
  induction ops generalizing pb with
  | nil => exact h
  | cons op ops ih => exact ih (applyOp_inv op h)

/-- Claim C1: starting from a tracker created with total ≥ 0, after any
sequence of advance (IncrementBy) calls with nonnegative arguments and
adjustTotal (AddTotal) calls with arbitrary arguments, the invariant
0 ≤ current ≤ total holds (every prefix of a history is itself a history,
so the invariant holds after every call). -/
theorem c1_counter_invariant (description : String) (total : Int)
    (barLength : Nat) (ops : List PBOp) (htotal : 0 ≤ total)
    (hops : ∀ n : Int, PBOp.advance n ∈ ops → 0 ≤ n) :
    0 ≤ (runOps (NewProgressBar description total barLength) ops).current ∧
      (runOps (NewProgressBar description total barLength) ops).current ≤
        (runOps (NewProgressBar description total barLength) ops).total := by
  exact runOps_inv ops ⟨le_refl 0, htotal⟩

/-- Witness for C1 at a concrete history. -/
theorem c1_counter_invariant_witness :
    (0 : Int) ≤ 5 ∧
      (0 ≤ (runOps (NewProgressBar "T" 5 3)
          [PBOp.advance 2, PBOp.adjustTotal (-4), PBOp.advance 9]).current ∧
        (runOps (NewProgressBar "T" 5 3)
          [PBOp.advance 2, PBOp.adjustTotal (-4), PBOp.advance 9]).current ≤
          (runOps (NewProgressBar "T" 5 3)
            [PBOp.advance 2, PBOp.adjustTotal (-4), PBOp.advance 9]).total) :=
  ⟨by decide,
    c1_counter_invariant "T" 5 3
      [PBOp.advance 2, PBOp.adjustTotal (-4), PBOp.advance 9] (by decide)
      (by
        intro n hn
        simp only [List.mem_cons, List.not_mem_nil, or_false,
          PBOp.advance.injEq, reduceCtorEq, false_or] at hn
        rcases hn with hn | hn <;> omega)⟩

/-- Claim C2: IncrementBy with n < 0 is rejected: the state (current and
total) is unchanged and the only output is the printed warning, so the
progress status line is not rendered. -/
theorem c2_negative_advance_rejected (pb : ProgressBar) (n elapsedNs : Int)
    (h : n < 0) :
    IncrementBy pb n elapsedNs =
      (pb, ["Error: Increment value cannot be negative.\n"]) := by
  unfold IncrementBy
  rw [if_pos h]

/-- Witness for C2 at a concrete call. -/
theorem c2_negative_advance_rejected_witness :
    (-1 : Int) < 0 ∧
      IncrementBy (NewProgressBar "T" 5 3) (-1) 0 =
        (NewProgressBar "T" 5 3,
          ["Error: Increment value cannot be negative.\n"]) :=
  ⟨by decide, c2_negative_advance_rejected (NewProgressBar "T" 5 3) (-1) 0
    (by decide)⟩

/-- Claim C3: AddTotal sets total to max(old total + delta, 0) — in
particular never negative — and leaves current at min(old current, new
total), i.e. clamps current down to the new total exactly when it exceeds
it.  Proved for every state, hence for every reachable one. -/
theorem c3_addTotal_clamps (pb : ProgressBar) (n elapsedNs : Int) :
    (AddTotal pb n elapsedNs).1.total = max (pb.total + n) 0 ∧
      (AddTotal pb n elapsedNs).1.current =
        min pb.current (max (pb.total + n) 0) ∧
      0 ≤ (AddTotal pb n elapsedNs).1.total := by
  simp only [AddTotal]
  split_ifs with ht hc hc <;> refine ⟨by omega, by omega, by omega⟩

lemma runOps_replicate_advance_one (k : Nat) :
    ∀ pb : ProgressBar, 0 ≤ pb.current → pb.current + k ≤ pb.total →
      (runOps pb (List.replicate k (PBOp.advance 1))).current =
          pb.current + k ∧
        (runOps pb (List.replicate k (PBOp.advance 1))).total = pb.total := by
  induction k with
  | zero => intro pb h0 hk; simp [runOps]
  | succ k ih =>
    intro pb h0 hk
    rw [List.replicate_succ]
    have hstep : applyOp pb (PBOp.advance 1) = { pb with current := pb.current + 1 } := by
      simp only [applyOp, IncrementBy]
      rw [if_neg (by omega), if_neg (by omega)]
    have hrun : runOps pb (PBOp.advance 1 :: List.replicate k (PBOp.advance 1)) =
        runOps { pb with current := pb.current + 1 }
          (List.replicate k (PBOp.advance 1)) := by
      simp only [runOps, List.foldl_cons, hstep]
    rw [hrun]
    have := ih { pb with current := pb.current + 1 } (by simp; omega)
      (by simp; omega)
    refine ⟨?_, ?_⟩
    · rw [this.1]; simp; ring
    · rw [this.2]

/-- Claim C4: N callers each issuing M advance(1) (Increment) calls lose no
update: every IncrementBy call holds the single mutex pb.mu for its whole
read-modify-write (and display), so any concurrent execution is a
serialization, i.e. some sequence of N*M atomic advance(1) operations;
from current = 0 with total ≥ N*M every such sequence ends with
current = N*M exactly. -/
theorem c4_no_lost_updates (N M : Nat) (pb : ProgressBar)
    (h0 : pb.current = 0) (hT : ((N * M : Nat) : Int) ≤ pb.total) :
    (runOps pb (List.replicate (N * M) (PBOp.advance 1))).current =
      ((N * M : Nat) : Int) := by
  have h := runOps_replicate_advance_one (N * M) pb (by omega) (by omega)
  omega

/-- Witness for C4 with two callers of three increments each. -/
theorem c4_no_lost_updates_witness :
    (NewProgressBar "T" 10 4).current = 0 ∧
      ((2 * 3 : Nat) : Int) ≤ (NewProgressBar "T" 10 4).total ∧
      (runOps (NewProgressBar "T" 10 4)
          (List.replicate (2 * 3) (PBOp.advance 1))).current =
        ((2 * 3 : Nat) : Int) :=
  ⟨by decide, by decide,
    c4_no_lost_updates 2 3 (NewProgressBar "T" 10 4) (by decide) (by decide)⟩

/-- Claim C5: with total == 0, formatProgressBar returns through the guarded
degenerate branch — taken before the percent division by total is ever
reached — whose line shows a fully empty bar of barLength dashes, a literal
0%, and the raw current/total counts. -/
theorem c5_zero_total_branch (current : Int) (description : String)
    (barLength : Nat) (elapsedNs : Int) (currentStageName : String) :
    ∃ rest : String,
      formatProgressBar current 0 description barLength elapsedNs
          currentStageName =
        "\r" ++ description ++ ": [ " ++ stringsRepeat "-" barLength ++
          " ] 0% (" ++ toString current ++ "/" ++ toString (0 : Int) ++ rest := by
  refine ⟨") | Stage: " ++ currentStageName ++ " | Elapsed: " ++
    durationString (durationRoundSec elapsedNs) ++ " | Avg: " ++
    avgSpeedString current elapsedNs ++ " | ETA: " ++
    etaString current 0 elapsedNs, ?_⟩
  simp [formatProgressBar, String.append_assoc]

/-- Witness for C5 (trivially, C5 has only universally quantified data
arguments, but we also evaluate it at a concrete state). -/
theorem c5_zero_total_branch_witness :
    ∃ rest : String,
      formatProgressBar 0 0 "job" 4 0 "" =
        "\r" ++ "job" ++ ": [ " ++ stringsRepeat "-" 4 ++ " ] 0% (" ++
          toString (0 : Int) ++ "/" ++ toString (0 : Int) ++ rest :=
  c5_zero_total_branch 0 "job" 4 0 ""

lemma formatProgressBar_ne_newline (current total : Int) (description : String)
    (barLength : Nat) (elapsedNs : Int) (currentStageName : String) :
    formatProgressBar current total description barLength elapsedNs
      currentStageName ≠ "\n" := by
  unfold formatProgressBar
  split
  · intro h
    have hd := congrArg String.data h
    simp [String.data_append] at hd
  · intro h
    have hd := congrArg String.data h
    simp [String.data_append] at hd

/-- Counterexample to claim C6 as stated: on a tracker with total == 0 (and
hence current == 0 == total), Display does emit the terminating newline,
although the claim says none is emitted when total == 0. -/
theorem c6_newline_counterexample :
    "\n" ∈ Display (NewProgressBar "T" 0 10) 5 := by decide

/-- Claim C6 as amended: Display terminates the line with a newline if and
only if current == total — with no total > 0 proviso; in particular with
total == 0 and current == 0 the newline is emitted. -/
theorem c6_newline_iff (pb : ProgressBar) (elapsedNs : Int) :
    "\n" ∈ Display pb elapsedNs ↔ pb.current = pb.total := by
  unfold Display
  split
  · simp; tauto
  · simp only [List.mem_singleton]
    constructor
    · intro h
      exact absurd h.symm (formatProgressBar_ne_newline _ _ _ _ _ _)
    · intro h
      tauto

/-- Embeds the keyStage struct: per-stage statistics, all durations and
timestamps in nanoseconds. -/
structure keyStage where
  name : String
  totalDuration : Int
  count : Int
  maxDuration : Int
  minDuration : Int
  startTime : Int
  endTime : Int
deriving DecidableEq, Repr

/-- Embeds the ProgressReporter struct; the Go map ks is an association
list in insertion order (iteration order of a Go map is unspecified, and no
claim depends on it). -/
structure ProgressReporter where
  startTime : Int
  endTime : Int
  totalDuration : Int
  ks : List (String × keyStage)
deriving DecidableEq, Repr

/-- Embeds NewProgressReporter: empty map, zero times. -/
def NewProgressReporter : ProgressReporter :=
  { startTime := 0, endTime := 0, totalDuration := 0, ks := [] }

/-- Go map lookup p.ks[name]: the nil pointer for a missing key is none. -/
def ksFind (l : List (String × keyStage)) (name : String) : Option keyStage :=
  match l with
  | [] => none
  | (k, v) :: t => if k = name then some v else ksFind t name

/-- In-place mutation of the keyStage pointed to by name (writes through
the map value pointer). -/
def ksUpdate (l : List (String × keyStage)) (name : String)
    (f : keyStage → keyStage) : List (String × keyStage) :=
  match l with
  | [] => []
  | (k, v) :: t =>
    if k = name then (k, f v) :: ksUpdate t name f
    else (k, v) :: ksUpdate t name f

/-- Embeds StartKeyStageRecord: a first occurrence of the name inserts a
fresh keyStage whose minDuration is 1<<63 - 1, the maximum int64 duration;
then the startTime of the entry for name is set to now. -/
def StartKeyStageRecord (p : ProgressReporter) (name : String) (now : Int) :
    ProgressReporter :=
  let ks :=
    if (ksFind p.ks name).isSome then p.ks
    else p.ks ++ [(name,
      { name := name
        totalDuration := 0
        count := 0
        maxDuration := 0
        minDuration := 9223372036854775807
        startTime := 0
        endTime := 0 })]
  { p with ks := ksUpdate ks name (fun v => { v with startTime := now }) }

/-- Embeds EndKeyStageRecord.  The Go body dereferences p.ks[name]
unconditionally; for a missing name that nil-pointer dereference panics,
modelled here as none.  Otherwise the entry is updated: endTime := now, the
sample now - startTime is accumulated into totalDuration and count, and
maxDuration / minDuration are raised / lowered against the sample. -/
def EndKeyStageRecord (p : ProgressReporter) (name : String) (now : Int) :
    Option ProgressReporter :=
  match ksFind p.ks name with
  | none => none
  | some _ => some { p with ks := ksUpdate p.ks name (fun v =>
      let currentDuration := now - v.startTime
      let v := { v with
        endTime := now
        totalDuration := v.totalDuration + currentDuration
        count := v.count + 1 }
      let v := if currentDuration > v.maxDuration then
        { v with maxDuration := currentDuration } else v
      if currentDuration < v.minDuration then
        { v with minDuration := currentDuration } else v) }

/-- Embeds Report: the overall line, then one line per stage in map order;
fmt.Printf "%d s" truncates durations to whole seconds by integer division
(toward zero) by time.Second.  The stage line literal has a space after the
tab: "\t Key: ...". -/
def Report (p : ProgressReporter) : List String :=
  ("Total duration: " ++ toString (Int.tdiv p.totalDuration 1000000000) ++
      " s\n") ::
    p.ks.map (fun e =>
      "\t Key: " ++ e.1 ++ ", Count: " ++ toString e.2.count ++
        ", Total duration: " ++
        toString (Int.tdiv e.2.totalDuration 1000000000) ++
        " s, Max duration: " ++
        toString (Int.tdiv e.2.maxDuration 1000000000) ++
        " s, Min duration: " ++
        toString (Int.tdiv e.2.minDuration 1000000000) ++ " s\n")

/-- Runs a sequence of StartKeyStageRecord calls (name, observed time). -/
def runStarts (p : ProgressReporter) (calls : List (String × Int)) :
    ProgressReporter :=
  calls.foldl (fun q c => StartKeyStageRecord q c.1 c.2) p

lemma ksFind_ksUpdate (l : List (String × keyStage)) (name : String)
    (f : keyStage → keyStage) :
    ksFind (ksUpdate l name f) name = (ksFind l name).map f := by
  induction l with
  | nil => rfl
  | cons e t ih =>
    obtain ⟨k, v⟩ := e
    by_cases h : k = name <;> simp [ksFind, ksUpdate, h, ih]

lemma ksFind_ksUpdate_ne (l : List (String × keyStage)) (name other : String)
    (f : keyStage → keyStage) (h : other ≠ name) :
    ksFind (ksUpdate l other f) name = ksFind l name := by
  induction l with
  | nil => rfl
  | cons e t ih =>
    obtain ⟨k, v⟩ := e
    by_cases hk : k = other
    · subst hk
      simp [ksFind, ksUpdate, h, ih]
    · simp [ksFind, ksUpdate, hk, ih]

lemma ksFind_append_self (l : List (String × keyStage)) (name : String)
    (v : keyStage) (h : ksFind l name = none) :
    ksFind (l ++ [(name, v)]) name = some v := by
  induction l with
  | nil => simp [ksFind]
  | cons e t ih =>
    obtain ⟨k, w⟩ := e
    by_cases hk : k = name
    · simp [ksFind, hk] at h
    · simp only [ksFind, hk, if_false, List.cons_append] at h ⊢
      simp [ksFind, hk, ih h]

lemma ksFind_start_self (p : ProgressReporter) (name : String) (t : Int)
    (h : ksFind p.ks name = none) :
    ksFind (StartKeyStageRecord p name t).ks name =
      some { name := name
             totalDuration := 0
             count := 0
             maxDuration := 0
             minDuration := 9223372036854775807
             startTime := t
             endTime := 0 } := by
  simp only [StartKeyStageRecord, h, Option.isSome_none, Bool.false_eq_true,
    if_false, ksFind_ksUpdate, ksFind_append_self p.ks name _ h]
  rfl

/-- Claim C8: after exactly one completed StartKeyStageRecord /
EndKeyStageRecord pair for a fresh name, observed at times t1 ≤ t2 with an
int64-representable sample (in Go a Duration cannot exceed 1<<63 - 1, the
value minDuration is initialized to), the StageStats has
minDuration == maxDuration == totalDuration == t2 - t1 and count == 1: the
sentinel makes the first sample both min and max. -/
theorem c8_single_pair_stats (p : ProgressReporter) (name : String)
    (t1 t2 : Int) (hfresh : ksFind p.ks name = none) (hmono : 0 ≤ t2 - t1)
    (hrange : t2 - t1 ≤ 9223372036854775807) :
    ∃ q : ProgressReporter,
      EndKeyStageRecord (StartKeyStageRecord p name t1) name t2 = some q ∧
        ∃ v : keyStage, ksFind q.ks name = some v ∧
          v.minDuration = t2 - t1 ∧ v.maxDuration = t2 - t1 ∧
          v.totalDuration = t2 - t1 ∧ v.count = 1 := by
  have hfind := ksFind_start_self p name t1 hfresh
  refine ⟨_, by rw [EndKeyStageRecord, hfind], ?_⟩
  rw [ksFind_ksUpdate, hfind]
  refine ⟨_, rfl, ?_, ?_, ?_, ?_⟩ <;>
    · simp only [gt_iff_lt]
      split_ifs <;> simp_all <;> omega

/-- Witness for C8 with a 5-second stage. -/
theorem c8_single_pair_stats_witness :
    ksFind NewProgressReporter.ks "load" = none ∧
      ∃ q : ProgressReporter,
        EndKeyStageRecord (StartKeyStageRecord NewProgressReporter "load" 0)
            "load" 5000000000 = some q ∧
          ∃ v : keyStage, ksFind q.ks "load" = some v ∧
            v.minDuration = 5000000000 - 0 ∧ v.maxDuration = 5000000000 - 0 ∧
            v.totalDuration = 5000000000 - 0 ∧ v.count = 1 :=
  ⟨rfl, c8_single_pair_stats NewProgressReporter "load" 0 5000000000 rfl
    (by decide) (by decide)⟩

/-- A concrete completed 5-second stage, used to exercise Report. -/
def sampleStage : keyStage :=
  { name := "a"
    totalDuration := 5000000000
    count := 1
    maxDuration := 5000000000
    minDuration := 5000000000
    startTime := 0
    endTime := 5000000000 }

/-- A concrete reporter holding exactly the sample stage. -/
def sampleReporter : ProgressReporter :=
  { startTime := 0, endTime := 0, totalDuration := 0
    ks := [("a", sampleStage)] }

/-- Counterexample to claim C9 as stated: for a reporter holding one
completed 5-second stage named "a", Report emits the stage line with a
space between the tab and "Key" — "\t Key: ..." — not the claimed exact
form "\tKey: ...": the output differs from the list the claim prescribes. -/
theorem c9_report_format_counterexample :
    Report sampleReporter =
      ["Total duration: 0 s\n",
        "\t Key: a, Count: 1, Total duration: 5 s, Max duration: 5 s, Min duration: 5 s\n"] ∧
      ["Total duration: 0 s\n",
        "\t Key: a, Count: 1, Total duration: 5 s, Max duration: 5 s, Min duration: 5 s\n"] ≠
      ["Total duration: 0 s\n",
        "\tKey: a, Count: 1, Total duration: 5 s, Max duration: 5 s, Min duration: 5 s\n"] := by
  constructor
  · rfl
  · decide

/-- Claim C9 as amended: Report emits first the line
"Total duration: {N} s" (N the overall duration truncated to whole
seconds), then one line per recorded stage of the exact form
"\t Key: {name}, Count: {count}, Total duration: {T} s, Max duration: {Mx}
s, Min duration: {Mn} s" — a space follows the tab — with durations
truncated to whole seconds; with no recorded stages only the total-duration
line is emitted. -/
theorem c9_report_format (p : ProgressReporter) :
    (Report p).length = 1 + p.ks.length ∧
      (Report p).head? =
        some ("Total duration: " ++
          toString (Int.tdiv p.totalDuration 1000000000) ++ " s\n") ∧
      (∀ k : String, ∀ v : keyStage, (k, v) ∈ p.ks →
        ("\t Key: " ++ k ++ ", Count: " ++ toString v.count ++
            ", Total duration: " ++
            toString (Int.tdiv v.totalDuration 1000000000) ++
            " s, Max duration: " ++
            toString (Int.tdiv v.maxDuration 1000000000) ++
            " s, Min duration: " ++
            toString (Int.tdiv v.minDuration 1000000000) ++ " s\n") ∈
          Report p) ∧
      (p.ks = [] →
        Report p =
          ["Total duration: " ++
            toString (Int.tdiv p.totalDuration 1000000000) ++ " s\n"]) := by
  refine ⟨by simp only [Report, List.length_cons, List.length_map]; omega,
    rfl, ?_, ?_⟩
  · intro k v hkv
    simp only [Report, List.mem_cons, List.mem_map]
    right
    exact ⟨(k, v), hkv, rfl⟩
  · intro h
    simp only [Report, h, List.map_nil]

/-- Witness for C9 at a reporter with one recorded stage. -/
theorem c9_report_format_witness :
    ("a", sampleStage) ∈ sampleReporter.ks ∧
      ("\t Key: " ++ "a" ++ ", Count: " ++ toString sampleStage.count ++
          ", Total duration: " ++
          toString (Int.tdiv sampleStage.totalDuration 1000000000) ++
          " s, Max duration: " ++
          toString (Int.tdiv sampleStage.maxDuration 1000000000) ++
          " s, Min duration: " ++
          toString (Int.tdiv sampleStage.minDuration 1000000000) ++ " s\n") ∈
        Report sampleReporter :=
  ⟨by decide, (c9_report_format sampleReporter).2.2.1 "a" sampleStage
    (by decide)⟩

lemma ksFind_append_other (l : List (String × keyStage)) (k name : String)
    (v : keyStage) (hne : k ≠ name) :
    ksFind (l ++ [(k, v)]) name = ksFind l name := by
  induction l with
  | nil => simp [ksFind, hne]
  | cons e t ih =>
    obtain ⟨k0, v0⟩ := e
    by_cases h0 : k0 = name <;> simp [ksFind, h0, ih]

lemma ksFind_start_other (p : ProgressReporter) (started name : String)
    (t : Int) (hne : started ≠ name) :
    ksFind (StartKeyStageRecord p started t).ks name = ksFind p.ks name := by
  unfold StartKeyStageRecord
  by_cases h : (ksFind p.ks started).isSome
  · simp only [h, if_true]
    exact ksFind_ksUpdate_ne _ _ _ _ hne
  · simp only [h, Bool.false_eq_true, if_false]
    rw [ksFind_ksUpdate_ne _ _ _ _ hne, ksFind_append_other _ _ _ _ hne]

lemma ksFind_runStarts_none (calls : List (String × Int)) :
    ∀ p : ProgressReporter, ∀ name : String, ksFind p.ks name = none →
      name ∉ calls.map Prod.fst → ksFind (runStarts p calls).ks name = none := by
  induction calls with
  | nil => intro p name h _; exact h
  | cons c t ih =>
    intro p name h hmem
    simp only [List.map_cons, List.mem_cons] at hmem
    push_neg at hmem
    obtain ⟨h1, h2⟩ := hmem
    simp only [runStarts, List.foldl_cons]
    exact ih _ name
      (by rw [ksFind_start_other _ _ _ _ (fun he => h1 he.symm)]; exact h) h2

/-- Claim C10: EndKeyStageRecord for a name never passed to
StartKeyStageRecord dereferences the missing map entry: the lookup yields
no keyStage, and the error branch — in Go a nil-pointer panic, here none —
is reached, so no stage statistics are updated. -/
theorem c10_end_without_start (calls : List (String × Int)) (name : String)
    (t : Int) (h : name ∉ calls.map Prod.fst) :
    EndKeyStageRecord (runStarts NewProgressReporter calls) name t = none := by
  have hfind := ksFind_runStarts_none calls NewProgressReporter name rfl h
  simp only [EndKeyStageRecord, hfind]

/-- Witness for C10: ending stage "b" after starting only stage "a". -/
theorem c10_end_without_start_witness :
    "b" ∉ ([("a", (0 : Int))].map Prod.fst) ∧
      EndKeyStageRecord (runStarts NewProgressReporter [("a", 0)]) "b" 7 =
        none :=
  ⟨by decide, c10_end_without_start [("a", 0)] "b" 7 (by decide)⟩

lemma tdiv_natCast (a b : Nat) :
    Int.tdiv (a : Int) (b : Int) = ((a / b : Nat) : Int) := rfl

/-- Reference definition following the words of the spec: with
rate = current / (elapsedNs / 1e9) items per second, the ETA in seconds is
remaining / rate = remaining * elapsedNs / (current * 1e9), rounded to the
nearest whole second (halves away from zero): floor((2p + q) / (2q)). -/
def specEtaRoundedSeconds (remaining elapsedNs current : Nat) : Nat :=
  (2 * (remaining * elapsedNs) + current * 1000000000) /
    (2 * (current * 1000000000))

lemma div_round_ms (p q : Nat) (hq : 0 < q) :
    (1000 * p / q + 500) / 1000 = (2 * p + q) / (2 * q) := by
  have hp : p = q * (p / q) + p % q := (Nat.div_add_mod p q).symm
  set n := p / q with hn
  set r := p % q with hr
  have hrq : r < q := Nat.mod_lt _ hq
  have h1 : 1000 * p = 1000 * r + 1000 * n * q := by rw [hp]; ring
  have h2 : 1000 * p / q = 1000 * r / q + 1000 * n := by
    rw [h1, Nat.add_mul_div_right _ _ hq]
  set y := 1000 * r / q with hy
  have hylt : y < 1000 := by
    rw [hy, Nat.div_lt_iff_lt_mul hq]; omega
  have h3 : (1000 * p / q + 500) / 1000 = n + (y + 500) / 1000 := by
    rw [h2]
    have e : y + 1000 * n + 500 = y + 500 + n * 1000 := by ring
    rw [e, Nat.add_mul_div_right _ _ (by norm_num : (0:Nat) < 1000)]
    omega
  have h4 : 2 * p + q = 2 * r + q + n * (2 * q) := by rw [hp]; ring
  have h5 : (2 * p + q) / (2 * q) = (2 * r + q) / (2 * q) + n := by
    rw [h4, Nat.add_mul_div_right _ _ (by omega : 0 < 2 * q)]
  have h6 : (y + 500) / 1000 = (2 * r + q) / (2 * q) := by
    rcases le_or_lt q (2 * r) with hc | hc
    · have hy500 : 500 ≤ y := by
        rw [hy, Nat.le_div_iff_mul_le hq]; omega
      have e1 : (y + 500) / 1000 = 1 := by
        apply Nat.div_eq_of_lt_le <;> omega
      have e2 : (2 * r + q) / (2 * q) = 1 := by
        apply Nat.div_eq_of_lt_le <;> omega
      rw [e1, e2]
    · have hy500 : y < 500 := by
        rw [hy, Nat.div_lt_iff_lt_mul hq]; omega
      have e1 : (y + 500) / 1000 = 0 := Nat.div_eq_of_lt (by omega)
      have e2 : (2 * r + q) / (2 * q) = 0 := Nat.div_eq_of_lt (by omega)
      rw [e1, e2]
  rw [h3, h5, h6]
  omega

lemma durationRoundSec_natCast (x : Nat) :
    durationRoundSec ((x : Nat) : Int) =
      (((x + 500000000) / 1000000000 * 1000000000 : Nat) : Int) := by
  unfold durationRoundSec
  rw [if_neg (by exact not_lt.mpr (Int.natCast_nonneg x)), Int.toNat_natCast]

lemma durationString_natCast (x : Nat) :
    durationString ((x : Nat) : Int) = goDurationStringSec (x / 1000000000) := by
  unfold durationString
  rw [if_neg (by exact not_lt.mpr (Int.natCast_nonneg x)), Int.toNat_natCast]

lemma etaString_formula (current total elapsedNs : Int) (hc : 0 < current)
    (hlt : current < total) (he : 0 < elapsedNs) :
    etaString current total elapsedNs =
      goDurationStringSec (specEtaRoundedSeconds (total - current).toNat
        elapsedNs.toNat current.toNat) := by
  obtain ⟨R, hR⟩ : ∃ R : Nat, total - current = (R : Int) :=
    ⟨(total - current).toNat, (Int.toNat_of_nonneg (by omega)).symm⟩
  obtain ⟨E, hE⟩ : ∃ E : Nat, elapsedNs = (E : Int) :=
    ⟨elapsedNs.toNat, (Int.toNat_of_nonneg (by omega)).symm⟩
  obtain ⟨C, hC⟩ : ∃ C : Nat, current = (C : Int) :=
    ⟨current.toNat, (Int.toNat_of_nonneg (by omega)).symm⟩
  have hCpos : 0 < C := by omega
  unfold etaString
  rw [if_neg (by omega), if_pos ⟨he, hc⟩, hR, hE, hC, Int.toNat_natCast,
    Int.toNat_natCast, Int.toNat_natCast]
  have e1 : (R : Int) * E * 1000 = ((R * E * 1000 : Nat) : Int) := by
    push_cast; ring
  have e2 : (C : Int) * 1000000000 = ((C * 1000000000 : Nat) : Int) := by
    push_cast; ring
  rw [e1, e2, tdiv_natCast]
  have e3 : ((R * E * 1000 / (C * 1000000000) : Nat) : Int) * 1000000 =
      ((R * E * 1000 / (C * 1000000000) * 1000000 : Nat) : Int) := by
    push_cast; ring
  rw [e3, durationRoundSec_natCast, durationString_natCast]
  congr 1
  set M := R * E * 1000 / (C * 1000000000) with hM
  have n1 : M * 1000000 + 500000000 = (M + 500) * 1000000 := by ring
  have n2 : (M * 1000000 + 500000000) / 1000000000 = (M + 500) / 1000 := by
    rw [n1, show (1000000000 : Nat) = 1000 * 1000000 from rfl,
      Nat.mul_div_mul_right _ _ (by norm_num : (0:Nat) < 1000000)]
  rw [n2, Nat.mul_div_cancel _ (by norm_num : (0:Nat) < 1000000000), hM,
    show R * E * 1000 = 1000 * (R * E) by ring,
    div_round_ms (R * E) (C * 1000000000) (by positivity)]
  rfl

/-- Claim C7: the rendered ETA field is the "Done" marker if
current == total; the "Estimating..." marker if current == 0 and total > 0;
otherwise, when the average rate is positive (elapsed > 0, current > 0), it
is (total - current) / rate rounded to the nearest whole second and
formatted as a duration; and the "N/A" (unavailable) marker whenever the
rate is 0 with current > 0.  Stated for reachable counters
0 ≤ current ≤ total. -/
theorem c7_eta_field (current total elapsedNs : Int) (h0 : 0 ≤ current)
    (h1 : current ≤ total) :
    (current = total → etaString current total elapsedNs = "Done") ∧
      (current = 0 → 0 < total →
        etaString current total elapsedNs = "Estimating...") ∧
      (current ≠ total → 0 < current → 0 < elapsedNs →
        etaString current total elapsedNs =
          goDurationStringSec (specEtaRoundedSeconds (total - current).toNat
            elapsedNs.toNat current.toNat)) ∧
      (current ≠ total → 0 < current → elapsedNs ≤ 0 →
        etaString current total elapsedNs = "N/A") := by
  refine ⟨?_, ?_, ?_, ?_⟩
  · intro h
    unfold etaString
    rw [if_pos h]
  · intro hc ht
    unfold etaString
    rw [if_neg (by omega), if_neg (fun h => absurd h.2 (by omega)),
      if_pos ⟨hc, ht⟩]
  · intro hne hc he
    exact etaString_formula current total elapsedNs hc (by omega) he
  · intro hne hc he
    unfold etaString
    rw [if_neg hne, if_neg (fun h => absurd h.1 (by omega)),
      if_neg (fun h => absurd h.1 (by omega))]

/-- Witness for C7: 2 of 5 units done after 2 seconds gives a 3-second ETA
(rate 1 item/s, remaining 3). -/
theorem c7_eta_field_witness :
    (0 : Int) ≤ 2 ∧ (2 : Int) ≤ 5 ∧ etaString 2 5 2000000000 = "3s" := by
  have h := (c7_eta_field 2 5 2000000000 (by decide) (by decide)).2.2.1
    (by decide) (by decide) (by decide)
  refine ⟨by decide, by decide, ?_⟩
  rw [h]
  decide
